import Mathlib

/-!
Verification of the weighted multi-source dataset blending engine
(`lm_engine/data/megatron/blended_dataset.py`): the index planner, the
disk cache for blend plans, and the blended view with its post-construction
validation.  Machine weights are embedded as exact rationals, numpy arrays
as lists, and the artifact directory as an explicit store value.
-/

namespace BlendedDatasetModel

/-- Scan a list keeping the best (index, value) pair seen so far; a later
element replaces the current best only when strictly greater, so the
earliest maximal element wins. -/
def bestPair : List ℚ → ℕ → (ℕ × ℚ) → (ℕ × ℚ)
  | [], _, b => b
  | x :: xs, i, b => bestPair xs (i + 1) (if b.2 < x then (i, x) else b)

/-- Index of the maximal element of a list of rationals, ties broken by the
smallest index; `0` on the empty list. -/
def argmax : List ℚ → ℕ
  | [] => 0
  | x :: xs => (bestPair xs 1 (0, x)).1

theorem bestPair_snd_ge (xs : List ℚ) (i : ℕ) (b : ℕ × ℚ) :
    b.2 ≤ (bestPair xs i b).2 := by
  induction xs generalizing i b with
  | nil => exact le_rfl
  | cons x xs ih =>
    simp only [bestPair]
    by_cases h : b.2 < x
    · simpa [h] using le_trans (le_of_lt h) (ih (i + 1) (i, x))
    · simpa [h] using ih (i + 1) b

theorem bestPair_mem_le (xs : List ℚ) (i : ℕ) (b : ℕ × ℚ) :
    ∀ k, k < xs.length → xs.getD k 0 ≤ (bestPair xs i b).2 := by
  induction xs generalizing i b with
  | nil => intro k hk; simp at hk
  | cons x xs ih =>
    intro k hk
    match k with
    | 0 =>
      simp only [List.getD_cons_zero, bestPair]
      by_cases h : b.2 < x
      · simpa [h] using bestPair_snd_ge xs (i + 1) (i, x)
      · exact le_trans (le_of_not_lt h) (by simpa [h] using bestPair_snd_ge xs (i + 1) b)
    | k + 1 =>
      simp only [List.getD_cons_succ, bestPair]
      by_cases h : b.2 < x
      · simpa [h] using ih (i + 1) (i, x) k (by simpa using hk)
      · simpa [h] using ih (i + 1) b k (by simpa using hk)

theorem bestPair_cases (xs : List ℚ) (i : ℕ) (b : ℕ × ℚ) :
    bestPair xs i b = b ∨ ∃ k, k < xs.length ∧ bestPair xs i b = (i + k, xs.getD k 0) := by
  induction xs generalizing i b with
  | nil => exact Or.inl rfl
  | cons x xs ih =>
    simp only [bestPair]
    by_cases h : b.2 < x
    · rw [if_pos h]
      rcases ih (i + 1) (i, x) with h0 | ⟨k, hk, hres⟩
      · refine Or.inr ⟨0, by simp, ?_⟩
        simpa using h0
      · refine Or.inr ⟨k + 1, by simpa using hk, ?_⟩
        have harith : i + 1 + k = i + (k + 1) := by omega
        simp only [List.getD_cons_succ]
        rw [hres, harith]
    · rw [if_neg h]
      rcases ih (i + 1) b with h0 | ⟨k, hk, hres⟩
      · exact Or.inl h0
      · refine Or.inr ⟨k + 1, by simpa using hk, ?_⟩
        have harith : i + 1 + k = i + (k + 1) := by omega
        simp only [List.getD_cons_succ]
        rw [hres, harith]

theorem argmax_lt_length (l : List ℚ) (h : l ≠ []) : argmax l < l.length := by
  match l with
  | x :: xs =>
    simp only [argmax, List.length_cons]
    rcases bestPair_cases xs 1 (0, x) with h0 | ⟨k, hk, hres⟩
    · rw [h0]; omega
    · rw [hres]; simpa using by omega

theorem getD_argmax_ge (l : List ℚ) (h : l ≠ []) :
    ∀ j, j < l.length → l.getD j 0 ≤ l.getD (argmax l) 0 := by
  match l with
  | x :: xs =>
    have hval : (x :: xs).getD (argmax (x :: xs)) 0 = (bestPair xs 1 (0, x)).2 := by
      simp only [argmax]
      rcases bestPair_cases xs 1 (0, x) with h0 | ⟨k, hk, hres⟩
      · rw [h0]; simp
      · rw [hres]
        have : 1 + k = k + 1 := by omega
        simp [this]
    intro j hj
    rw [hval]
    match j with
    | 0 => simpa using bestPair_snd_ge xs 1 (0, x)
    | j + 1 =>
      simp only [List.getD_cons_succ]
      exact bestPair_mem_le xs 1 (0, x) j (by simpa using hj)

/-- Modelled from the spec: the per-source deficit `weight_i * t - c_i` at draw
`t`, measuring how far behind its fair share source `i` currently is.  The
running counts are carried as a function from source index to count. -/
def deficit (w : List ℚ) (c : ℕ → ℕ) (t i : ℕ) : ℚ :=
  w.getD i 0 * (t : ℚ) - (c i : ℚ)

/-- Modelled from the spec: the list of deficits of all `K` sources at draw `t`. -/
def deficitList (w : List ℚ) (c : ℕ → ℕ) (t : ℕ) : List ℚ :=
  (List.range w.length).map (deficit w c t)

/-- Modelled from the spec: the source selected at draw `t`, the argmax of the
deficits with ties broken by the smallest source index. -/
def pick (w : List ℚ) (c : ℕ → ℕ) (t : ℕ) : ℕ :=
  argmax (deficitList w c t)

/-- Modelled from the spec: the main loop of the index planner
(`build_blending_indices`, whose body is not part of the sources here; only
its call site in `BlendedDataset._build_indices` is).  `n` is the number of
draws left, `t` the 1-based index of the current draw, and `c` the per-source
running counts.  Each draw records the selected source and
`c_{i*} mod L_{i*}`, then increments `c_{i*}`. -/
def planAux (w : List ℚ) (L : List ℕ) : ℕ → ℕ → (ℕ → ℕ) → List ℕ × List ℕ
  | 0, _, _ => ([], [])
  | n + 1, t, c =>
    let i := pick w c t
    let rest := planAux w L n (t + 1) (fun j => if j = i then c j + 1 else c j)
    (i :: rest.1, (c i % L.getD i 0) :: rest.2)

/-- Modelled from the spec: `build_blending_indices` — given the weights, the
per-source lengths and the target size, produce the source-index array and the
sample-index array of the blend plan (weighted round robin, minimal
deviation). -/
def build_blending_indices (w : List ℚ) (L : List ℕ) (N : ℕ) : List ℕ × List ℕ :=
  planAux w L N 1 (fun _ => 0)

theorem planAux_fst_length (w : List ℚ) (L : List ℕ) (n t : ℕ) (c : ℕ → ℕ) :
    (planAux w L n t c).1.length = n := by
  induction n generalizing t c with
  | zero => rfl
  | succ n ih => simp [planAux, ih]

theorem planAux_snd_length (w : List ℚ) (L : List ℕ) (n t : ℕ) (c : ℕ → ℕ) :
    (planAux w L n t c).2.length = n := by
  induction n generalizing t c with
  | zero => rfl
  | succ n ih => simp [planAux, ih]

theorem getD_map_range (f : ℕ → ℚ) (n j : ℕ) (hj : j < n) :
    ((List.range n).map f).getD j 0 = f j := by
  rw [List.getD_eq_getElem?_getD, List.getElem?_map, List.getElem?_range hj]
  rfl

theorem getD_mem_of_lt (w : List ℚ) (i : ℕ) (hi : i < w.length) :
    w.getD i 0 ∈ w := by
  rw [List.getD_eq_getElem?_getD, List.getElem?_eq_getElem hi]
  exact List.getElem_mem hi

theorem sum_getD_length (w : List ℚ) :
    ∑ i ∈ Finset.range w.length, w.getD i 0 = w.sum := by
  induction w with
  | nil => simp
  | cons x xs ih =>
    rw [List.length_cons, Finset.sum_range_succ']
    simp only [List.getD_cons_succ, List.getD_cons_zero, List.sum_cons]
    rw [ih, add_comm]

theorem deficitList_length (w : List ℚ) (c : ℕ → ℕ) (t : ℕ) :
    (deficitList w c t).length = w.length := by
  simp [deficitList]

theorem deficitList_ne_nil (w : List ℚ) (c : ℕ → ℕ) (t : ℕ) (hne : w ≠ []) :
    deficitList w c t ≠ [] := by
  intro h
  have hlen : w.length = 0 := by
    simpa [deficitList_length] using congrArg List.length h
  exact hne (List.length_eq_zero.mp hlen)

theorem pick_lt (w : List ℚ) (c : ℕ → ℕ) (t : ℕ) (hne : w ≠ []) :
    pick w c t < w.length := by
  have := argmax_lt_length (deficitList w c t) (deficitList_ne_nil w c t hne)
  rw [deficitList_length] at this
  exact this

theorem deficit_pick_pos (w : List ℚ) (c : ℕ → ℕ) (s : ℕ) (hw : w.sum = 1) (hne : w ≠ [])
    (hc : ∑ i ∈ Finset.range w.length, (c i : ℚ) = (s : ℚ)) :
    0 < deficit w c (s + 1) (pick w c (s + 1)) := by
  have hsum : ∑ i ∈ Finset.range w.length, deficit w c (s + 1) i = 1 := by
    unfold deficit
    rw [Finset.sum_sub_distrib, ← Finset.sum_mul, sum_getD_length, hw, hc]
    push_cast
    ring
  have hex : ∃ j ∈ Finset.range w.length, 0 < deficit w c (s + 1) j := by
    by_contra hno
    push_neg at hno
    have : ∑ i ∈ Finset.range w.length, deficit w c (s + 1) i ≤ 0 :=
      Finset.sum_nonpos hno
    linarith
  obtain ⟨j, hj, hjpos⟩ := hex
  have hjlt : j < w.length := Finset.mem_range.mp hj
  have hplt : pick w c (s + 1) < w.length := pick_lt w c (s + 1) hne
  have h1 : (deficitList w c (s + 1)).getD j 0 = deficit w c (s + 1) j :=
    getD_map_range _ _ _ hjlt
  have h2 : (deficitList w c (s + 1)).getD (pick w c (s + 1)) 0
      = deficit w c (s + 1) (pick w c (s + 1)) :=
    getD_map_range _ _ _ hplt
  have hge := getD_argmax_ge (deficitList w c (s + 1)) (deficitList_ne_nil w c (s + 1) hne) j
    (by rw [deficitList_length]; exact hjlt)
  rw [h1] at hge
  have : deficit w c (s + 1) j ≤ deficit w c (s + 1) (pick w c (s + 1)) := by
    rw [← h2]
    exact hge
  linarith

theorem planAux_count_lt (w : List ℚ) (L : List ℕ) (hw : w.sum = 1)
    (hnn : ∀ x ∈ w, 0 ≤ x) (hne : w ≠ []) :
    ∀ (n s : ℕ) (c : ℕ → ℕ),
      (∑ i ∈ Finset.range w.length, (c i : ℚ)) = (s : ℚ) →
      (∀ i, i < w.length → (c i : ℚ) < w.getD i 0 * (s : ℚ) + 1) →
      ∀ m, m ≤ n → ∀ i, i < w.length →
        (((planAux w L n (s + 1) c).1.take m).count i : ℚ) + (c i : ℚ)
          < w.getD i 0 * ((s : ℚ) + (m : ℚ)) + 1 := by
  intro n
  induction n with
  | zero =>
    intro s c _ hb m hm i hi
    have hm0 : m = 0 := Nat.le_zero.mp hm
    subst hm0
    simpa using hb i hi
  | succ n ih =>
    intro s c hc hb m hm i hi
    match m with
    | 0 => simpa using hb i hi
    | m + 1 =>
      simp only [planAux, List.take_succ_cons, List.count_cons, beq_iff_eq]
      set p := pick w c (s + 1) with hp
      set c2 : ℕ → ℕ := fun j => if j = p then c j + 1 else c j with hc2
      have hplt : p < w.length := pick_lt w c (s + 1) hne
      have hdefpos : 0 < deficit w c (s + 1) p := deficit_pick_pos w c s hw hne hc
      have hwple : (c p : ℚ) < w.getD p 0 * ((s : ℚ) + 1) := by
        unfold deficit at hdefpos
        push_cast at hdefpos
        linarith
      have hc2sum : (∑ i ∈ Finset.range w.length, (c2 i : ℚ)) = (((s + 1 : ℕ)) : ℚ) := by
        have hsplit : ∀ j ∈ Finset.range w.length,
            (c2 j : ℚ) = (c j : ℚ) + (if j = p then 1 else 0) := by
          intro j _
          by_cases hj : j = p <;> simp [hc2, hj]
        rw [Finset.sum_congr rfl hsplit, Finset.sum_add_distrib, hc,
          Finset.sum_ite_eq' (Finset.range w.length) p (fun _ => (1 : ℚ)),
          if_pos (Finset.mem_range.mpr hplt)]
        push_cast
        ring
      have hc2bound : ∀ i, i < w.length →
          (c2 i : ℚ) < w.getD i 0 * (((s + 1 : ℕ)) : ℚ) + 1 := by
        intro i hilt
        by_cases hip : i = p
        · rw [hip]
          have : c2 p = c p + 1 := by simp [hc2]
          rw [this]
          push_cast
          linarith
        · have hw0 : 0 ≤ w.getD i 0 := hnn _ (getD_mem_of_lt w i hilt)
          have hbi := hb i hilt
          have : c2 i = c i := by simp [hc2, hip]
          rw [this]
          push_cast
          nlinarith
      have hih := ih (s + 1) c2 hc2sum hc2bound m (Nat.le_of_succ_le_succ hm) i hi
      by_cases hpi : p = i
      · have hc2i : c2 i = c i + 1 := by simp [hc2, hpi.symm]
        rw [hc2i] at hih
        rw [if_pos hpi]
        push_cast at hih ⊢
        linarith
      · have hip : ¬ i = p := fun h => hpi h.symm
        have hc2i : c2 i = c i := by simp [hc2, hip]
        rw [hc2i] at hih
        rw [if_neg hpi]
        push_cast at hih ⊢
        linarith

theorem planAux_entry_bounds (w : List ℚ) (L : List ℕ) (hne : w ≠ [])
    (hL : ∀ i, i < w.length → 0 < L.getD i 0) :
    ∀ (n t : ℕ) (c : ℕ → ℕ) (idx : ℕ), idx < n →
      (planAux w L n t c).1.getD idx 0 < w.length ∧
      (planAux w L n t c).2.getD idx 0 < L.getD ((planAux w L n t c).1.getD idx 0) 0 := by
  intro n
  induction n with
  | zero => intro t c idx hidx; omega
  | succ n ih =>
    intro t c idx hidx
    simp only [planAux]
    match idx with
    | 0 =>
      have hplt : pick w c t < w.length := pick_lt w c t hne
      refine ⟨by simpa using hplt, ?_⟩
      simpa using Nat.mod_lt _ (hL _ hplt)
    | idx + 1 =>
      simpa using ih (t + 1)
        (fun j => if j = pick w c t then c j + 1 else c j) idx (by omega)

/-- Model of a `MegatronDataset` instance as consumed by `BlendedDataset`
(the `MegatronDataset` class itself is not among the sources): its concrete
Python type is abstracted as a tag, `unique_identifiers` as a content-identity
string, and its records as a payload function on `[0, len)`. -/
structure SourceDataset where
  concreteType : ℕ
  contentId : String
  len : ℕ
  payload : ℕ → ℕ

/-- Modelled from the spec: `SourceDataset.get` returns the record at a
sample index, failing outside `[0, len)` (random access over the source). -/
def SourceDataset.getRecord (d : SourceDataset) (i : ℕ) : Option ℕ :=
  if i < d.len then some (d.payload i) else none

/-- Indexing a 1-D numpy array by a Python int: indices in `[0, length)`
read directly, negative indices in `[-length, -1]` wrap around from the end,
and anything else raises `IndexError` (modelled as `none`). -/
def npGet (a : List ℕ) (i : ℤ) : Option ℕ :=
  if 0 ≤ i then
    if i < (a.length : ℤ) then some (a.getD i.toNat 0) else none
  else
    if -(a.length : ℤ) ≤ i then some (a.getD ((a.length : ℤ) + i).toNat 0) else none

/-- State of `self` after `BlendedDataset.__init__` has built the indices:
the blended sources, the two plan arrays, and the requested size. -/
structure BlendedView where
  datasets : List SourceDataset
  datasetIndex : List ℕ
  datasetSampleIndex : List ℕ
  size : ℕ

/-- Model of `BlendedDataset.__len__`, which returns `self.size`. -/
def BlendedView.length (v : BlendedView) : ℕ := v.size

/-- Model of `BlendedDataset.__getitem__`: look up the dataset id and the
sample id in the plan arrays (numpy indexing), then fetch the record from the
selected source and annotate it with the dataset id.  `none` stands for an
`IndexError` escaping from any of the lookups. -/
def BlendedView.getItem (v : BlendedView) (idx : ℤ) : Option (ℕ × ℕ) :=
  (npGet v.datasetIndex idx).bind fun datasetId =>
    (npGet v.datasetSampleIndex idx).bind fun sampleId =>
      v.datasets[datasetId]?.bind fun d =>
        (d.getRecord sampleId).map fun r => (datasetId, r)

/-- Content of one artifact file in the cache directory. -/
inductive CacheFile where
  | descriptionFile (s : String)
  | indexArray (a : List ℕ)
  | sampleArray (a : List ℕ)
deriving DecidableEq

/-- Path of an artifact file: the directory-and-hash part produced by
`get_path_to`, and the artifact leaf name. -/
structure CachePath where
  base : String
  leaf : String
deriving DecidableEq

/-- Contents of the cache directory, newest write first. -/
abbrev CacheStore := List (CachePath × CacheFile)

/-- Read an artifact file if present (`os.path.isfile` + open). -/
def readFile (store : CacheStore) (p : CachePath) : Option CacheFile :=
  (store.find? (fun e => e.1 == p)).map (·.2)

/-- Persist an artifact file (`open(...,"wt")` / `np.save`). -/
def writeFile (store : CacheStore) (p : CachePath) (f : CacheFile) : CacheStore :=
  (p, f) :: store

/-- Failure modes of `BlendedDataset.__init__`: a failed `assert`, a missing
file handed to `np.load`, an artifact of the wrong kind, an uncaught
`IndexError` from the size check, and the explicit `RuntimeError` raised when
the size is improperly bounded. -/
inductive InitError where
  | assertionError
  | fileNotFoundError
  | artifactTypeError
  | indexError
  | runtimeError
deriving DecidableEq

/-- Model of `np.load`: return the file's content, or fail with
`FileNotFoundError` when no file exists at the path. -/
def npLoad (store : CacheStore) (p : CachePath) : Except InitError CacheFile :=
  match readFile store p with
  | some f => .ok f
  | none => .error .fileNotFoundError

/-- Modelled from the spec: `normalize` rescales the weights so that they sum
to exactly 1 (its body is not among the sources; only its call site is). -/
def normalize (w : List ℚ) : List ℚ := w.map (fun x => x / w.sum)

/-- Decimal-free printing of a rational, used in the canonical description. -/
def ratStr (q : ℚ) : String := toString q.num ++ "/" ++ toString q.den

/-- Model of `unique_description` (lines 66-73): a canonical dump of the class
name, the sources' content identities in order, the post-normalization weights
and the size.  The md5 hex digest of this text is modelled by the text itself,
treating the hash as injective. -/
def uniqueDescription (ids : List String) (w : List ℚ) (size : ℕ) : String :=
  "BlendedDataset;" ++ String.intercalate "," ids ++ ";"
    ++ String.intercalate "," (w.map ratStr) ++ ";" ++ toString size

/-- Path of one cache artifact, `{path_to_cache}/{hash}-BlendedDataset-{leaf}`. -/
def cachePathTo (dir : String) (descHash : String) (leaf : String) : CachePath :=
  ⟨dir ++ "/" ++ descHash ++ "-BlendedDataset-", leaf⟩

/-- Model of `BlendedDataset._build_indices` (lines 96-168): with no cache
directory, always build in memory; with a cache directory, probe the three
artifact files, rebuild and persist on a miss when caching is allowed, and
otherwise fall through to `np.load` of the two index arrays. -/
def buildIndices (store : CacheStore) (pathToCache : Option String)
    (cachingAllowed : Bool) (desc : String) (w : List ℚ) (L : List ℕ) (size : ℕ) :
    Except InitError ((List ℕ × List ℕ) × CacheStore) :=
  match pathToCache with
  | none => .ok (build_blending_indices w L size, store)
  | some dir =>
    let pDesc := cachePathTo dir desc "description.txt"
    let pIdx := cachePathTo dir desc "dataset_index.npy"
    let pSmp := cachePathTo dir desc "dataset_sample_index.npy"
    let cacheHit := (readFile store pDesc).isSome && (readFile store pIdx).isSome
      && (readFile store pSmp).isSome
    if !cacheHit && cachingAllowed then
      let plan := build_blending_indices w L size
      let store1 := writeFile store pDesc (.descriptionFile desc)
      let store2 := writeFile store1 pIdx (.indexArray plan.1)
      let store3 := writeFile store2 pSmp (.sampleArray plan.2)
      .ok (plan, store3)
    else
      match npLoad store pIdx with
      | .error e => .error e
      | .ok f1 =>
        match npLoad store pSmp with
        | .error e => .error e
        | .ok f2 =>
          match f1, f2 with
          | .indexArray a, .sampleArray b => .ok ((a, b), store)
          | _, _ => .error .artifactTypeError

/-- Configuration handed to `BlendedDataset.__init__`: the datasets, the raw
weights, the target size, `config.path_to_cache` and `caching_allowed`. -/
structure BlendedConfig where
  datasets : List SourceDataset
  weights : List ℚ
  size : ℕ
  pathToCache : Option String
  cachingAllowed : Bool

/-- Model of the `assert` on line 51: all datasets share the concrete type of
the first one (vacuously true on an empty list, since `map` is lazy). -/
def homogeneous (ds : List SourceDataset) : Bool :=
  match ds with
  | [] => true
  | d :: _ => ds.all (fun x => x.concreteType == d.concreteType)

/-- Model of `np.isclose(sum(weights), 1.0)` with numpy's default tolerances
`rtol = 1e-5`, `atol = 1e-8`: `|a - 1| ≤ atol + rtol * |1|`. -/
def npIsCloseOne (a : ℚ) : Bool :=
  decide (|a - 1| ≤ 1 / 100000000 + 1 / 100000)

/-- Model of the four `assert` statements on lines 48-51 of
`BlendedDataset.__init__`. -/
def assertsPass (datasets : List SourceDataset) (w : List ℚ) : Bool :=
  decide (datasets.length < 32767) && decide (datasets.length = w.length)
    && npIsCloseOne w.sum && homogeneous datasets

/-- Invocation of `_build_indices` as performed by `__init__`: normalized
weights, the datasets' lengths, and the description derived from the
configuration. -/
def resolve (store : CacheStore) (cfg : BlendedConfig) :
    Except InitError ((List ℕ × List ℕ) × CacheStore) :=
  buildIndices store cfg.pathToCache cfg.cachingAllowed
    (uniqueDescription (cfg.datasets.map (·.contentId)) (normalize cfg.weights) cfg.size)
    (normalize cfg.weights) (cfg.datasets.map (·.len)) cfg.size

/-- Model of `BlendedDataset.__init__` (lines 40-83): the asserts, the index
construction, and the size-check probe of `self[size - 1]` and `self[size]`
(the latter must raise `IndexError`; if it returns, `RuntimeError` is raised). -/
def blendedInit (store : CacheStore) (cfg : BlendedConfig) :
    Except InitError (BlendedView × CacheStore) :=
  if assertsPass cfg.datasets cfg.weights then
    match resolve store cfg with
    | .error e => .error e
    | .ok res =>
      let v : BlendedView := ⟨cfg.datasets, res.1.1, res.1.2, cfg.size⟩
      match v.getItem ((cfg.size : ℤ) - 1) with
      | none => .error .indexError
      | some _ =>
        match v.getItem ((cfg.size : ℤ)) with
        | some _ => .error .runtimeError
        | none => .ok (v, res.2)
  else .error .assertionError

theorem sum_map_div (l : List ℚ) (c : ℚ) :
    (l.map (fun x => x / c)).sum = l.sum / c := by
  induction l with
  | nil => simp
  | cons x xs ih => simp [ih, add_div]

theorem normalize_length (w : List ℚ) : (normalize w).length = w.length := by
  simp [normalize]

theorem normalize_sum (w : List ℚ) (h : w.sum ≠ 0) : (normalize w).sum = 1 := by
  rw [normalize, sum_map_div, div_self h]

theorem normalize_nonneg (w : List ℚ) (hs : 0 < w.sum) (hnn : ∀ x ∈ w, 0 ≤ x) :
    ∀ x ∈ normalize w, 0 ≤ x := by
  intro x hx
  rw [normalize, List.mem_map] at hx
  obtain ⟨y, hy, rfl⟩ := hx
  exact div_nonneg (hnn y hy) (le_of_lt hs)

theorem assertsPass_iff (ds : List SourceDataset) (w : List ℚ) :
    assertsPass ds w = true ↔
      ds.length < 32767 ∧ ds.length = w.length ∧
        |w.sum - 1| ≤ 1 / 100000000 + 1 / 100000 ∧ homogeneous ds = true := by
  simp [assertsPass, npIsCloseOne, and_assoc]

theorem sum_pos_of_close (w : List ℚ)
    (h : |w.sum - 1| ≤ 1 / 100000000 + 1 / 100000) : 0 < w.sum := by
  rw [abs_le] at h
  linarith [h.1]

theorem ne_nil_of_close (w : List ℚ)
    (h : |w.sum - 1| ≤ 1 / 100000000 + 1 / 100000) : w ≠ [] := by
  intro hnil
  rw [hnil] at h
  norm_num at h

theorem npGet_eq_some (i : ℤ) (N : ℕ)
    (hlow : -(N : ℤ) ≤ i) (hhigh : i < (N : ℤ)) :
    ∃ j : ℕ, j < N ∧
      ∀ (b : List ℕ), b.length = N → npGet b i = some (b.getD j 0) := by
  by_cases hpos : 0 ≤ i
  · refine ⟨i.toNat, ?_, ?_⟩
    · omega
    · intro b hb
      rw [npGet, if_pos hpos, hb, if_pos hhigh]
  · refine ⟨((N : ℤ) + i).toNat, ?_, ?_⟩
    · omega
    · intro b hb
      rw [npGet, if_neg hpos, hb, if_pos (by omega)]

theorem npGet_eq_none (a : List ℕ) (i : ℤ)
    (h : i < -(a.length : ℤ) ∨ (a.length : ℤ) ≤ i) : npGet a i = none := by
  rcases h with h | h
  · rw [npGet, if_neg (by omega), if_neg (by omega)]
  · rw [npGet, if_pos (by omega), if_neg (by omega)]

theorem getD_map_len (ds : List SourceDataset) (k : ℕ) (hk : k < ds.length) :
    (ds.map (·.len)).getD k 0 = (ds.get ⟨k, hk⟩).len := by
  rw [List.getD_eq_getElem?_getD, List.getElem?_map, List.getElem?_eq_getElem hk]
  simp

theorem getElem?_eq_some_get (ds : List SourceDataset) (k : ℕ) (hk : k < ds.length) :
    ds[k]? = some (ds.get ⟨k, hk⟩) := by
  rw [List.getElem?_eq_getElem hk]
  simp

theorem getItem_isSome_iff (v : BlendedView)
    (h1 : v.datasetIndex.length = v.size)
    (h2 : v.datasetSampleIndex.length = v.size)
    (hb : ∀ j, j < v.size → v.datasetIndex.getD j 0 < v.datasets.length ∧
        v.datasetSampleIndex.getD j 0
          < (v.datasets.map (·.len)).getD (v.datasetIndex.getD j 0) 0)
    (i : ℤ) :
    (v.getItem i).isSome ↔ (-(v.size : ℤ) ≤ i ∧ i < (v.size : ℤ)) := by
  constructor
  · intro hsome
    by_contra hout
    have hrange : i < -((v.datasetIndex.length : ℤ)) ∨ (v.datasetIndex.length : ℤ) ≤ i := by
      rw [h1]; omega
    have : v.getItem i = none := by
      rw [BlendedView.getItem, npGet_eq_none _ _ hrange]
      rfl
    rw [this] at hsome
    simp at hsome
  · rintro ⟨hlow, hhigh⟩
    obtain ⟨j, hj, hget⟩ := npGet_eq_some i v.size hlow hhigh
    obtain ⟨hdlt, hslt⟩ := hb j hj
    rw [BlendedView.getItem, hget v.datasetIndex h1, hget v.datasetSampleIndex h2]
    rw [getD_map_len v.datasets _ hdlt] at hslt
    simp only [Option.some_bind]
    rw [getElem?_eq_some_get v.datasets _ hdlt]
    simp only [Option.some_bind]
    rw [SourceDataset.getRecord, if_pos hslt]
    simp

theorem readFile_write_same (s : CacheStore) (p : CachePath) (f : CacheFile) :
    readFile (writeFile s p f) p = some f := by
  rw [readFile, writeFile, List.find?_cons_of_pos]
  · rfl
  · exact beq_self_eq_true p

theorem readFile_write_other (s : CacheStore) (p q : CachePath) (f : CacheFile)
    (h : ¬ p = q) :
    readFile (writeFile s p f) q = readFile s q := by
  rw [readFile, writeFile, List.find?_cons_of_neg, ← readFile]
  simpa using h

theorem cachePathTo_ne (dir desc l1 l2 : String) (h : ¬ l1 = l2) :
    ¬ cachePathTo dir desc l1 = cachePathTo dir desc l2 := by
  simp [cachePathTo, CachePath.mk.injEq, h]

theorem npLoad_error (s : CacheStore) (p : CachePath) (e : InitError)
    (h : npLoad s p = .error e) : e = .fileNotFoundError := by
  rw [npLoad] at h
  cases hr : readFile s p with
  | none =>
    rw [hr] at h
    injection h with h2
    exact h2.symm
  | some f =>
    rw [hr] at h
    cases h

theorem buildIndices_error_cases (store : CacheStore) (p : Option String) (c : Bool)
    (d : String) (w : List ℚ) (L : List ℕ) (N : ℕ) (e : InitError)
    (h : buildIndices store p c d w L N = .error e) :
    e = .fileNotFoundError ∨ e = .artifactTypeError := by
  match p with
  | none => simp [buildIndices] at h
  | some dir =>
    simp only [buildIndices] at h
    split at h
    · simp at h
    · cases hIdx : npLoad store (cachePathTo dir d "dataset_index.npy") with
      | error e1 =>
        rw [hIdx] at h
        simp at h
        left
        rw [← h]
        exact npLoad_error _ _ _ hIdx
      | ok f1 =>
        rw [hIdx] at h
        cases hSmp : npLoad store (cachePathTo dir d "dataset_sample_index.npy") with
        | error e2 =>
          rw [hSmp] at h
          simp at h
          left
          rw [← h]
          exact npLoad_error _ _ _ hSmp
        | ok f2 =>
          rw [hSmp] at h
          match f1, f2 with
          | .indexArray a, .sampleArray b => simp at h
          | .descriptionFile s1, _ => right; simpa using h.symm
          | .indexArray a, .descriptionFile s2 => right; simpa using h.symm
          | .indexArray a, .indexArray a2 => right; simpa using h.symm
          | .sampleArray b, _ => right; simpa using h.symm

theorem resolve_no_cache (store : CacheStore) (cfg : BlendedConfig)
    (hpath : cfg.pathToCache = none) :
    resolve store cfg = .ok ((build_blending_indices (normalize cfg.weights)
      (cfg.datasets.map (·.len)) cfg.size), store) := by
  rw [resolve, hpath]
  rfl

theorem blendedInit_no_cache (store : CacheStore) (cfg : BlendedConfig)
    (hpath : cfg.pathToCache = none)
    (hpass : assertsPass cfg.datasets cfg.weights = true)
    (hlenpos : ∀ d ∈ cfg.datasets, 0 < d.len)
    (hsize : 1 ≤ cfg.size) :
    ∃ v : BlendedView,
      blendedInit store cfg = .ok (v, store) ∧
      v.datasets = cfg.datasets ∧ v.size = cfg.size ∧
      ∀ i : ℤ, (v.getItem i).isSome ↔ (-(cfg.size : ℤ) ≤ i ∧ i < (cfg.size : ℤ)) := by
  obtain ⟨hk, hkw, htol, hhom⟩ := (assertsPass_iff cfg.datasets cfg.weights).mp hpass
  have hwnil : cfg.weights ≠ [] := ne_nil_of_close cfg.weights htol
  have hne : normalize cfg.weights ≠ [] := by
    intro hnil
    exact hwnil (List.map_eq_nil_iff.mp hnil)
  have hwlen : (normalize cfg.weights).length = cfg.datasets.length := by
    rw [normalize_length, hkw]
  have hL : ∀ i, i < (normalize cfg.weights).length →
      0 < (cfg.datasets.map (·.len)).getD i 0 := by
    intro i hi
    rw [hwlen] at hi
    rw [getD_map_len cfg.datasets i hi]
    exact hlenpos _ (cfg.datasets.get_mem _ _)
  set plan := build_blending_indices (normalize cfg.weights)
    (cfg.datasets.map (·.len)) cfg.size with hplan
  set v : BlendedView := ⟨cfg.datasets, plan.1, plan.2, cfg.size⟩ with hv
  have hlen1 : v.datasetIndex.length = v.size := planAux_fst_length _ _ _ _ _
  have hlen2 : v.datasetSampleIndex.length = v.size := planAux_snd_length _ _ _ _ _
  have hb : ∀ j, j < v.size → v.datasetIndex.getD j 0 < v.datasets.length ∧
      v.datasetSampleIndex.getD j 0
        < (v.datasets.map (·.len)).getD (v.datasetIndex.getD j 0) 0 := by
    intro j hj
    have := planAux_entry_bounds (normalize cfg.weights) (cfg.datasets.map (·.len))
      hne hL cfg.size 1 (fun _ => 0) j hj
    rw [← hwlen]
    exact this
  have hvs : v.size = cfg.size := rfl
  have hiff0 := getItem_isSome_iff v hlen1 hlen2 hb
  have hiff : ∀ i : ℤ, (v.getItem i).isSome ↔
      (-(cfg.size : ℤ) ≤ i ∧ i < (cfg.size : ℤ)) := by
    intro i
    rw [hiff0 i, hvs]
  have hsome1 : (v.getItem ((cfg.size : ℤ) - 1)).isSome := by
    rw [hiff]
    omega
  have hnone : v.getItem ((cfg.size : ℤ)) = none := by
    have hns : ¬ (v.getItem ((cfg.size : ℤ))).isSome := by
      rw [hiff]
      omega
    exact Option.not_isSome_iff_eq_none.mp hns
  obtain ⟨r, hr⟩ := Option.isSome_iff_exists.mp hsome1
  refine ⟨v, ?_, rfl, rfl, hiff⟩
  unfold blendedInit
  rw [if_pos hpass, resolve_no_cache store cfg hpath]
  dsimp only
  rw [← hplan, ← hv, hr, hnone]

/-- Concrete source of length 2 with concrete type tag 0. -/
def dsA : SourceDataset := ⟨0, "source-a", 2, fun n => n⟩

/-- Concrete source of length 3 with a different concrete type tag. -/
def dsB : SourceDataset := ⟨1, "source-b", 3, fun n => n + 10⟩

/-- Concrete source of length 3 sharing the concrete type of `dsA`. -/
def dsC : SourceDataset := ⟨0, "source-c", 3, fun n => n⟩

/-- Single-source configuration: weight `[1.0]`, size 4, no cache directory. -/
def cfgSingle4 : BlendedConfig := ⟨[dsA], [1], 4, none, true⟩

/-- Same single-source configuration with target size 0. -/
def cfgSize0 : BlendedConfig := ⟨[dsA], [1], 0, none, true⟩

/-- Two sources of the same concrete type, weights one half each. -/
def cfgPair : BlendedConfig := ⟨[dsA, dsC], [1/2, 1/2], 2, none, true⟩

/-- Two sources of different concrete types, weights one half each. -/
def cfgMixed : BlendedConfig := ⟨[dsA, dsB], [1/2, 1/2], 2, none, true⟩

/-- Pair of configurations agreeing on content identities, lengths, weights
and size, with different payloads and concrete type tags. -/
def cfgW1 : BlendedConfig := ⟨[⟨0, "id-x", 2, fun n => n⟩], [1], 3, none, true⟩

/-- Companion configuration of `cfgW1` for the determinism instance. -/
def cfgW2 : BlendedConfig := ⟨[⟨7, "id-x", 2, fun n => n + 5⟩], [1], 3, none, true⟩

/-- Exactly 32767 copies of the same source. -/
def datasets32767 : List SourceDataset := List.replicate 32767 dsA

/-- Weights `1/32767` for each of the 32767 sources: they sum to exactly 1. -/
def weights32767 : List ℚ := List.replicate 32767 ((1 : ℚ) / 32767)

/-- Configuration with 32767 sources of valid weights. -/
def cfg32767 : BlendedConfig := ⟨datasets32767, weights32767, 1, none, true⟩

theorem cfgSingle4_pass : assertsPass cfgSingle4.datasets cfgSingle4.weights = true := by
  rw [assertsPass_iff]
  refine ⟨by norm_num [cfgSingle4], by norm_num [cfgSingle4], by norm_num [cfgSingle4], ?_⟩
  rfl

theorem cfgSingle4_lenpos : ∀ d ∈ cfgSingle4.datasets, 0 < d.len := by
  intro d hd
  rw [cfgSingle4] at hd
  simp only [List.mem_singleton] at hd
  subst hd
  decide

theorem cfgSize0_pass : assertsPass cfgSize0.datasets cfgSize0.weights = true := by
  rw [assertsPass_iff]
  refine ⟨by norm_num [cfgSize0], by norm_num [cfgSize0], by norm_num [cfgSize0], ?_⟩
  rfl

theorem homogPair : homogeneous cfgPair.datasets = true := rfl

/-- C1 (counterexample): the two-sided bounded-deviation claim
`|count_i(t) - weight_i * t| < 1` fails for the planner as specified.  With
weights `[1/48, 5/48, 21/48, 21/48]` (a valid configuration: nonnegative,
summing to 1) and N = 16, at prefix length t = 16 source 3 has been drawn 6
times while its fair share is 7, so the deviation reaches exactly 1. -/
theorem claimC1_counterexample :
    ([(1 : ℚ)/48, 5/48, 21/48, 21/48].sum = 1) ∧
    (∀ x ∈ [(1 : ℚ)/48, 5/48, 21/48, 21/48], 0 ≤ x) ∧
    ¬ (|(((build_blending_indices [(1 : ℚ)/48, 5/48, 21/48, 21/48] [1, 1, 1, 1] 16).1.take
            16).count 3 : ℚ)
          - ([(1 : ℚ)/48, 5/48, 21/48, 21/48]).getD 3 0 * (16 : ℚ)| < 1) := by
  refine ⟨by norm_num, ?_, ?_⟩
  · intro x hx
    fin_cases hx <;> norm_num
  · norm_num [build_blending_indices, planAux, pick, deficitList, deficit, argmax,
      bestPair, List.range_succ, List.count_cons]

/-- C1 (amended): one side of the bound does hold for every prefix: the count
never exceeds the fair share by 1 or more, `count_i(t) < weight_i * t + 1`
for every prefix length `t ≤ N` and every source `i`.  The deficit side
(`weight_i * t - count_i(t) < 1`) fails in general, reaching 1 at the
counterexample. -/
theorem claimC1_surplus (w : List ℚ) (L : List ℕ) (N t i : ℕ)
    (hw : w.sum = 1) (hnn : ∀ x ∈ w, 0 ≤ x) (hne : w ≠ [])
    (ht : t ≤ N) (hi : i < w.length) :
    ((((build_blending_indices w L N).1.take t).count i : ℕ) : ℚ)
      < w.getD i 0 * (t : ℚ) + 1 := by
  have h := planAux_count_lt w L hw hnn hne N 0 (fun _ => 0) (by simp)
    (by intro j hj; simp) t ht i hi
  rw [build_blending_indices]
  simpa using h

/-- C1 (witness): the amended bound at weights `[3/5, 2/5]`, N = 5, prefix
t = 3, source 0. -/
theorem claimC1_surplus_witness :
    (([(3 : ℚ)/5, 2/5].sum = 1) ∧ (∀ x ∈ [(3 : ℚ)/5, 2/5], 0 ≤ x) ∧
      ([(3 : ℚ)/5, 2/5] ≠ ([] : List ℚ)) ∧ (3 ≤ 5) ∧ (0 < [(3 : ℚ)/5, 2/5].length)) ∧
    ((((build_blending_indices [(3 : ℚ)/5, 2/5] [3, 2] 5).1.take 3).count 0 : ℕ) : ℚ)
      < ([(3 : ℚ)/5, 2/5]).getD 0 0 * (3 : ℚ) + 1 :=
  ⟨⟨by norm_num, by intro x hx; fin_cases hx <;> norm_num, by simp, by norm_num,
      by norm_num⟩,
    claimC1_surplus [(3 : ℚ)/5, 2/5] [3, 2] 5 3 0 (by norm_num)
      (by intro x hx; fin_cases hx <;> norm_num) (by simp) (by norm_num) (by norm_num)⟩

/-- C2: with a cache directory configured, no cached artifacts present, and
caching disallowed, `_build_indices` does not fail fast before touching the
artifacts: it falls through to the load branch and hands the nonexistent
index-array path to `np.load`, which fails with `FileNotFoundError` — there
is no `CacheUnavailableError` path in the code at all. -/
theorem claimC2_load_attempt (dir desc : String) (w : List ℚ) (L : List ℕ) (N : ℕ) :
    buildIndices [] (some dir) false desc w L N = .error .fileNotFoundError := by
  rfl

/-- C5: every entry of the blend plan is in range: the source index is below
the number of sources, and the sample index is below the selected source's
length (the planner wraps the running count modulo that length). -/
theorem claimC5_plan_bounds (w : List ℚ) (L : List ℕ) (N : ℕ) (hne : w ≠ [])
    (hL : ∀ j, j < w.length → 0 < L.getD j 0) (idx : ℕ) (hidx : idx < N) :
    (build_blending_indices w L N).1.getD idx 0 < w.length ∧
    (build_blending_indices w L N).2.getD idx 0
      < L.getD ((build_blending_indices w L N).1.getD idx 0) 0 := by
  rw [build_blending_indices]
  exact planAux_entry_bounds w L hne hL N 1 (fun _ => 0) idx hidx

/-- C5 (witness): the in-range invariant instantiated at the claim's single
source scenario (K = 1, weight `[1.0]`, N = 4, source length 2), whose plan
is exactly `([0,0,0,0], [0,1,0,1])`. -/
theorem claimC5_witness :
    (([(1 : ℚ)] ≠ ([] : List ℚ)) ∧ (∀ j, j < [(1 : ℚ)].length → 0 < [2].getD j 0) ∧
      (3 < 4)) ∧
    ((build_blending_indices [(1 : ℚ)] [2] 4).1.getD 3 0 < [(1 : ℚ)].length ∧
      (build_blending_indices [(1 : ℚ)] [2] 4).2.getD 3 0
        < [2].getD ((build_blending_indices [(1 : ℚ)] [2] 4).1.getD 3 0) 0) ∧
    build_blending_indices [(1 : ℚ)] [2] 4 = ([0, 0, 0, 0], [0, 1, 0, 1]) := by
  have hL : ∀ j, j < [(1 : ℚ)].length → 0 < [2].getD j 0 := by
    intro j hj
    rw [List.length_singleton] at hj
    have hj0 : j = 0 := Nat.lt_one_iff.mp hj
    subst hj0
    decide
  refine ⟨⟨by simp, hL, by norm_num⟩,
    claimC5_plan_bounds [(1 : ℚ)] [2] 4 (by simp) hL 3 (by norm_num), ?_⟩
  norm_num [build_blending_indices, planAux, pick, deficitList, deficit, argmax,
    bestPair, List.range_succ]

/-- C6: the worked scenario — sources of lengths `[3, 2]`, weights
`[0.6, 0.4]`, N = 5 produce `source_index = [0,1,0,1,0]` and
`sample_index = [0,0,1,1,2]` under the deficit-argmax rule with
smallest-index tie-break. -/
theorem claimC6_scenario :
    build_blending_indices [(3 : ℚ)/5, 2/5] [3, 2] 5 = ([0, 1, 0, 1, 0], [0, 0, 1, 1, 2]) := by
  norm_num [build_blending_indices, planAux, pick, deficitList, deficit, argmax,
    bestPair, List.range_succ]

/-- C3: index resolution is deterministic, a function of the configuration's
observables only: two configurations with the same weights, target size,
source content identities in order, and source lengths — regardless of the
sources' payloads or concrete types — resolve to the same plan against the
same cache state.  The model is a pure function, so repetition on any process
or machine cannot change the result. -/
theorem claimC3_deterministic (store : CacheStore) (cfg1 cfg2 : BlendedConfig)
    (hw : cfg1.weights = cfg2.weights) (hs : cfg1.size = cfg2.size)
    (hid : cfg1.datasets.map (·.contentId) = cfg2.datasets.map (·.contentId))
    (hlen : cfg1.datasets.map (·.len) = cfg2.datasets.map (·.len))
    (hp : cfg1.pathToCache = cfg2.pathToCache)
    (hc : cfg1.cachingAllowed = cfg2.cachingAllowed) :
    resolve store cfg1 = resolve store cfg2 := by
  rw [resolve, resolve, hw, hs, hid, hlen, hp, hc]

/-- C3 (witness): two configurations sharing identities, weights, lengths and
size but with different concrete types and payloads resolve identically. -/
theorem claimC3_witness :
    (cfgW1.datasets.map (·.concreteType) ≠ cfgW2.datasets.map (·.concreteType)) ∧
    resolve [] cfgW1 = resolve [] cfgW2 :=
  ⟨by decide, claimC3_deterministic [] cfgW1 cfgW2 rfl rfl rfl rfl rfl rfl⟩

/-- C4 (amended): for valid configurations with nonempty sources and target
size N ≥ 1 (no cache directory), construction succeeds, the view reports
length exactly N, access at N - 1 succeeds and access at N fails with an
out-of-range condition.  At N = 0 the claim fails: the probe `self[size - 1]`
itself raises `IndexError`, which escapes construction uncaught. -/
theorem claimC4_validation (store : CacheStore) (cfg : BlendedConfig)
    (hpath : cfg.pathToCache = none)
    (hpass : assertsPass cfg.datasets cfg.weights = true)
    (hlenpos : ∀ d ∈ cfg.datasets, 0 < d.len)
    (hsize : 1 ≤ cfg.size) :
    ∃ v : BlendedView, blendedInit store cfg = .ok (v, store) ∧
      v.length = cfg.size ∧
      (v.getItem ((cfg.size : ℤ) - 1)).isSome ∧
      v.getItem ((cfg.size : ℤ)) = none := by
  obtain ⟨v, hinit, _, hsz, hiff⟩ := blendedInit_no_cache store cfg hpath hpass hlenpos hsize
  refine ⟨v, hinit, ?_, ?_, ?_⟩
  · rw [BlendedView.length, hsz]
  · rw [hiff]
    omega
  · refine Option.not_isSome_iff_eq_none.mp ?_
    rw [hiff]
    omega

/-- C4 (witness): the validation contract at the single-source configuration
with N = 4. -/
theorem claimC4_witness :
    (cfgSingle4.pathToCache = none) ∧ (1 ≤ cfgSingle4.size) ∧
    (∃ v : BlendedView, blendedInit [] cfgSingle4 = .ok (v, []) ∧
      v.length = cfgSingle4.size ∧
      (v.getItem ((cfgSingle4.size : ℤ) - 1)).isSome ∧
      v.getItem ((cfgSingle4.size : ℤ)) = none) :=
  ⟨rfl, by decide,
    claimC4_validation [] cfgSingle4 rfl cfgSingle4_pass cfgSingle4_lenpos (by decide)⟩

/-- C4 (counterexample): target size N = 0 is a valid configuration per the
spec (it should yield two empty arrays), yet construction fails with an
uncaught `IndexError` from the `self[size - 1]` probe — not with
`InvariantError` (`RuntimeError`), and no object is returned. -/
theorem claimC4_counterexample :
    cfgSize0.size = 0 ∧
    assertsPass cfgSize0.datasets cfgSize0.weights = true ∧
    blendedInit [] cfgSize0 = .error .indexError ∧
    InitError.indexError ≠ InitError.runtimeError := by
  refine ⟨rfl, cfgSize0_pass, ?_, by decide⟩
  unfold blendedInit
  rw [if_pos cfgSize0_pass]
  rfl

/-- C7: the cache round-trip — building with no cache directory, building
against an empty cache directory with caching allowed (a miss, which persists
the three artifacts), and building again against the now-populated directory
(a hit, which loads the persisted arrays) all yield the same plan. -/
theorem claimC7_roundtrip (w : List ℚ) (L : List ℕ) (N : ℕ) (dir desc : String) :
    ∃ plan store1,
      buildIndices [] none true desc w L N = .ok (plan, []) ∧
      buildIndices [] (some dir) true desc w L N = .ok (plan, store1) ∧
      buildIndices store1 (some dir) true desc w L N = .ok (plan, store1) := by
  refine ⟨build_blending_indices w L N,
    writeFile (writeFile (writeFile [] (cachePathTo dir desc "description.txt")
          (.descriptionFile desc))
        (cachePathTo dir desc "dataset_index.npy")
        (.indexArray (build_blending_indices w L N).1))
      (cachePathTo dir desc "dataset_sample_index.npy")
      (.sampleArray (build_blending_indices w L N).2),
    rfl, rfl, ?_⟩
  have hne1 : ¬ cachePathTo dir desc "dataset_sample_index.npy"
      = cachePathTo dir desc "description.txt" :=
    cachePathTo_ne dir desc _ _ (by decide)
  have hne2 : ¬ cachePathTo dir desc "dataset_index.npy"
      = cachePathTo dir desc "description.txt" :=
    cachePathTo_ne dir desc _ _ (by decide)
  have hne3 : ¬ cachePathTo dir desc "dataset_sample_index.npy"
      = cachePathTo dir desc "dataset_index.npy" :=
    cachePathTo_ne dir desc _ _ (by decide)
  have hrd : readFile (writeFile (writeFile (writeFile []
        (cachePathTo dir desc "description.txt") (.descriptionFile desc))
        (cachePathTo dir desc "dataset_index.npy")
        (.indexArray (build_blending_indices w L N).1))
      (cachePathTo dir desc "dataset_sample_index.npy")
      (.sampleArray (build_blending_indices w L N).2))
      (cachePathTo dir desc "description.txt")
      = some (.descriptionFile desc) := by
    rw [readFile_write_other _ _ _ _ hne1, readFile_write_other _ _ _ _ hne2,
      readFile_write_same]
  have hri : readFile (writeFile (writeFile (writeFile []
        (cachePathTo dir desc "description.txt") (.descriptionFile desc))
        (cachePathTo dir desc "dataset_index.npy")
        (.indexArray (build_blending_indices w L N).1))
      (cachePathTo dir desc "dataset_sample_index.npy")
      (.sampleArray (build_blending_indices w L N).2))
      (cachePathTo dir desc "dataset_index.npy")
      = some (.indexArray (build_blending_indices w L N).1) := by
    rw [readFile_write_other _ _ _ _ hne3, readFile_write_same]
  have hrs : readFile (writeFile (writeFile (writeFile []
        (cachePathTo dir desc "description.txt") (.descriptionFile desc))
        (cachePathTo dir desc "dataset_index.npy")
        (.indexArray (build_blending_indices w L N).1))
      (cachePathTo dir desc "dataset_sample_index.npy")
      (.sampleArray (build_blending_indices w L N).2))
      (cachePathTo dir desc "dataset_sample_index.npy")
      = some (.sampleArray (build_blending_indices w L N).2) := by
    rw [readFile_write_same]
  simp only [buildIndices, npLoad, hrd, hri, hrs, Option.isSome_some, Bool.and_self,
    Bool.not_true, Bool.false_and, Bool.and_true, if_false]
  rw [if_neg (by simp), Prod.mk.eta]

/-- C8 (amended): out-of-range access fails exactly outside `[-N, N)` — not
outside `[0, N)`.  `get(i)` fails with `IndexError` iff `i < -N` or `i ≥ N`;
negative indices in `[-N, -1]` follow Python and numpy semantics and return
the record at `N + i`, contradicting the claim that every negative index
fails. -/
theorem claimC8_range (store : CacheStore) (cfg : BlendedConfig)
    (hpath : cfg.pathToCache = none)
    (hpass : assertsPass cfg.datasets cfg.weights = true)
    (hlenpos : ∀ d ∈ cfg.datasets, 0 < d.len)
    (hsize : 1 ≤ cfg.size) :
    ∃ v : BlendedView, blendedInit store cfg = .ok (v, store) ∧
      ∀ i : ℤ, v.getItem i = none ↔ (i < -(cfg.size : ℤ) ∨ (cfg.size : ℤ) ≤ i) := by
  obtain ⟨v, hinit, _, _, hiff⟩ := blendedInit_no_cache store cfg hpath hpass hlenpos hsize
  refine ⟨v, hinit, fun i => ?_⟩
  rw [← Option.not_isSome_iff_eq_none, hiff]
  omega

/-- C8 (witness): the amended access contract at the single-source
configuration with N = 4. -/
theorem claimC8_witness :
    (cfgSingle4.pathToCache = none) ∧ (1 ≤ cfgSingle4.size) ∧
    (∃ v : BlendedView, blendedInit [] cfgSingle4 = .ok (v, []) ∧
      ∀ i : ℤ, v.getItem i = none ↔
        (i < -(cfgSingle4.size : ℤ) ∨ (cfgSingle4.size : ℤ) ≤ i)) :=
  ⟨rfl, by decide,
    claimC8_range [] cfgSingle4 rfl cfgSingle4_pass cfgSingle4_lenpos (by decide)⟩

/-- C8 (counterexample): on the constructed view of length 4, the negative
index -1 — outside `[0, N)` — does not fail: it returns the record annotated
with source 0 at sample 1, via Python's negative-index wraparound. -/
theorem claimC8_counterexample :
    ((-1 : ℤ) < 0) ∧
    blendedInit [] cfgSingle4
      = .ok (⟨cfgSingle4.datasets, [0, 0, 0, 0], [0, 1, 0, 1], 4⟩, []) ∧
    BlendedView.getItem ⟨cfgSingle4.datasets, [0, 0, 0, 0], [0, 1, 0, 1], 4⟩ (-1)
      = some (0, 1) := by
  have hplan : build_blending_indices (normalize cfgSingle4.weights)
      (cfgSingle4.datasets.map (·.len)) cfgSingle4.size = ([0, 0, 0, 0], [0, 1, 0, 1]) := by
    norm_num [cfgSingle4, dsA, normalize, build_blending_indices, planAux, pick,
      deficitList, deficit, argmax, bestPair, List.range_succ]
  refine ⟨by norm_num, ?_, by decide⟩
  unfold blendedInit
  rw [if_pos cfgSingle4_pass, resolve_no_cache [] cfgSingle4 rfl, hplan]
  rfl

/-- C9 (counterexample): a configuration with exactly 32767 sources and valid
weights (each `1/32767`, summing to exactly 1) is rejected by the
construction-time assertion `len(datasets) < 32767`, so the ceiling admits at
most 32766 sources, not 32767. -/
theorem claimC9_counterexample :
    weights32767.sum = 1 ∧
    datasets32767.length = weights32767.length ∧
    datasets32767.length ≤ 32767 ∧
    blendedInit [] cfg32767 = .error .assertionError := by
  have hsum : weights32767.sum = 1 := by
    rw [weights32767, List.sum_replicate, nsmul_eq_mul]
    norm_num
  have hlen : cfg32767.datasets.length = 32767 := by
    show datasets32767.length = 32767
    rw [datasets32767, List.length_replicate]
  have hdec : decide (cfg32767.datasets.length < 32767) = false := by
    rw [hlen, decide_eq_false_iff_not]
    omega
  have hfail : assertsPass cfg32767.datasets cfg32767.weights = false := by
    rw [assertsPass, hdec]
    simp [Bool.false_and]
  refine ⟨hsum, ?_, ?_, ?_⟩
  · rw [datasets32767, weights32767, List.length_replicate, List.length_replicate]
  · rw [datasets32767, List.length_replicate]
  unfold blendedInit
  rw [hfail]
  rfl

/-- C9 (amended): for homogeneous source lists, construction avoids the
configuration assertion exactly when there are at most 32766 sources (the
assert is `K < 32767`, so K = 32767 is rejected), the weight count matches
the source count, and the weight sum is within numpy's default `isclose`
tolerance of 1, `|sum - 1| ≤ 1e-8 + 1e-5` (not ~1e-6). -/
theorem claimC9_accepts_iff (cfg : BlendedConfig)
    (hhom : homogeneous cfg.datasets = true) :
    (∀ store : CacheStore, blendedInit store cfg ≠ .error .assertionError) ↔
      (cfg.datasets.length ≤ 32766 ∧ cfg.datasets.length = cfg.weights.length ∧
        |cfg.weights.sum - 1| ≤ 1 / 100000000 + 1 / 100000) := by
  constructor
  · intro h
    by_cases hpass : assertsPass cfg.datasets cfg.weights = true
    · obtain ⟨h1, h2, h3, _⟩ := (assertsPass_iff _ _).mp hpass
      exact ⟨by omega, h2, h3⟩
    · exfalso
      apply h []
      unfold blendedInit
      rw [if_neg hpass]
  · rintro ⟨h1, h2, h3⟩ store
    have hpass : assertsPass cfg.datasets cfg.weights = true :=
      (assertsPass_iff _ _).mpr ⟨by omega, h2, h3, hhom⟩
    unfold blendedInit
    rw [if_pos hpass]
    cases hres : resolve store cfg with
    | error e =>
      unfold resolve at hres
      have hcase := buildIndices_error_cases _ _ _ _ _ _ _ _ hres
      dsimp only
      intro hcon
      injection hcon with h4
      rcases hcase with h5 | h5 <;> rw [h5] at h4 <;> cases h4
    | ok res =>
      dsimp only
      cases hg1 : BlendedView.getItem ⟨cfg.datasets, res.1.1, res.1.2, cfg.size⟩
          ((cfg.size : ℤ) - 1) with
      | none => simp
      | some r =>
        cases hg2 : BlendedView.getItem ⟨cfg.datasets, res.1.1, res.1.2, cfg.size⟩
            ((cfg.size : ℤ)) with
        | none => simp
        | some r2 => simp

/-- C9 (witness): the acceptance characterization at a homogeneous two-source
configuration with weights one half each. -/
theorem claimC9_witness :
    (homogeneous cfgPair.datasets = true) ∧
    ((∀ store : CacheStore, blendedInit store cfgPair ≠ .error .assertionError) ↔
      (cfgPair.datasets.length ≤ 32766 ∧ cfgPair.datasets.length = cfgPair.weights.length ∧
        |cfgPair.weights.sum - 1| ≤ 1 / 100000000 + 1 / 100000)) :=
  ⟨homogPair, claimC9_accepts_iff cfgPair homogPair⟩

/-- C10: construction rejects any configuration whose sources mix two
different concrete dataset types: the homogeneity assertion on line 51 fails,
so `__init__` fails with `AssertionError` regardless of the other fields. -/
theorem claimC10_mixed_rejected (store : CacheStore) (cfg : BlendedConfig)
    (d1 d2 : SourceDataset) (h1 : d1 ∈ cfg.datasets) (h2 : d2 ∈ cfg.datasets)
    (hne : d1.concreteType ≠ d2.concreteType) :
    blendedInit store cfg = .error .assertionError := by
  have hhom : homogeneous cfg.datasets = false := by
    cases hds : cfg.datasets with
    | nil =>
      rw [hds] at h1
      simp at h1
    | cons d rest =>
      by_contra hcon
      rw [Bool.not_eq_false, homogeneous, List.all_eq_true] at hcon
      have e1 := hcon d1 (hds ▸ h1)
      have e2 := hcon d2 (hds ▸ h2)
      rw [beq_iff_eq] at e1 e2
      exact hne (e1.trans e2.symm)
  have hfail : assertsPass cfg.datasets cfg.weights = false := by
    rw [assertsPass, hhom, Bool.and_false]
  unfold blendedInit
  rw [hfail]
  rfl

/-- C10 (witness): mixing the two concrete types of `dsA` and `dsB` is
rejected at construction. -/
theorem claimC10_witness :
    (dsA ∈ cfgMixed.datasets) ∧ (dsB ∈ cfgMixed.datasets) ∧
    (dsA.concreteType ≠ dsB.concreteType) ∧
    blendedInit [] cfgMixed = .error .assertionError :=
  ⟨by simp [cfgMixed], by simp [cfgMixed], by decide,
    claimC10_mixed_rejected [] cfgMixed dsA dsB (by simp [cfgMixed])
      (by simp [cfgMixed]) (by decide)⟩

end BlendedDatasetModel
